import Mathlib

/-!
Verification of `nodeset_validator_summary.py`: a script that fetches the
transaction history of the Multicall3 contract from Etherscan, filters for
NodeSet-related batch aggregate calls, and summarizes successful calls per
operator, printing a histogram and a concentration ratio.

The embedding is shallow: the Python functions are translated to executable
Lean definitions.  Exceptions of the fetch loop (transport errors, HTTP
errors, malformed JSON) are totalized into the `PageResult` type, and the
network is a pure oracle from (page, attempt) to `PageResult`.  The
potentially unbounded `while True:` pagination loop takes explicit fuel.
Machine values: Python's unbounded `int` is `Int`/`Nat`; the concentration
ratio (a Python float division of two small ints) is modelled in `ℚ`.
-/

namespace NodesetValidatorSummary

/-- Constants from the script. -/
def MULTICALL_ADDRESS : String := "0xcA11bde05977b3631167028862bE2a173976CA11"

def NODESET_VAULT_ADDRESS : String := "0xB266274F55e784689e97b7E363B0666d92e6305B"

def AGGREGATE_SIGNATURE : String := "0x252dba42"

def PAGE_OFFSET : Nat := 1000

def MAX_RETRIES : Nat := 3

def RETRY_DELAY : Nat := 2

/-- A raw transaction record from the indexing API.  `fromAddr` is the JSON
field `from` (a Python keyword-free rename), `input` the hex payload,
`isError` the error flag already parsed by `int(...)` (the script applies
`int(tx.get('isError', '0'))`), `hash` the transaction hash. -/
structure Tx where
  fromAddr : String
  input : String
  isError : Int
  hash : String
  deriving DecidableEq, Repr

/-- Character-wise lowercase, the embedding of Python `str.lower()` on the
ASCII hex/address strings this script manipulates. -/
def strLower (s : String) : String := String.mk (s.data.map Char.toLower)

/-- Embedding of Python's substring containment `needle in hay` on strings,
working on the underlying character lists. -/
def containsSub (needle : List Char) : List Char → Bool
  | [] => needle.isEmpty
  | c :: t => needle.isPrefixOf (c :: t) || containsSub needle t

/-- `is_nodeset_transaction(tx, vault_address)`: the input payload,
lowercased, contains the lowercased vault address minus its first two
characters (`vault_address.lower()[2:] in input_data`). -/
def is_nodeset_transaction (tx : Tx) (vault_address : String) : Bool :=
  let input_data := (strLower tx.input).data
  if containsSub ((strLower vault_address).data.drop 2) input_data then true
  else false

/-- The aggregate-call test of the summarization loop:
`input_data and len(input_data) >= 10 and input_data[:10].lower() == AGGREGATE_SIGNATURE.lower()`. -/
def isAggregateCall (input_data : String) : Bool :=
  !input_data.data.isEmpty && decide (10 ≤ input_data.data.length) &&
    (strLower (String.mk (input_data.data.take 10)) == strLower AGGREGATE_SIGNATURE)

/-- The operator accumulator `address_stats`: an insertion-ordered map from
checksummed sender address to its `'successful'` count (Python dicts keep
insertion order). -/
abbrev OperatorStats := List (String × Int)

/-- Look up the count stored for address `a`. -/
def getCount (stats : OperatorStats) (a : String) : Option Int :=
  (stats.find? (fun p => p.1 == a)).map (fun p => p.2)

/-- `address_stats[from_address]['successful'] += 1`: increment the entry
with key `a` (the first occurrence; keys are unique by construction). -/
def incrCount (a : String) : OperatorStats → OperatorStats
  | [] => []
  | (k, v) :: t => if k == a then (k, v + 1) :: t else (k, v) :: incrCount a t

/-- The body of the `for tx in transactions:` loop of
`summarize_validators_by_operator`, processing one record against the
current `address_stats`.  `checksum` embeds `web3.to_checksum_address`. -/
def processTx (checksum : String → String) (vault_address : String)
    (stats : OperatorStats) (tx : Tx) : OperatorStats :=
  if isAggregateCall tx.input then
    let from_address := checksum tx.fromAddr
    if ¬ is_nodeset_transaction tx vault_address then stats
    else
      let stats1 :=
        if stats.any (fun p => p.1 == from_address) then stats
        else stats ++ [(from_address, 0)]
      if tx.isError == 0 then incrCount from_address stats1 else stats1
  else stats

/-- The full filtering/aggregation pass over the fetched transaction list. -/
def address_stats (checksum : String → String) (vault_address : String)
    (transactions : List Tx) : OperatorStats :=
  transactions.foldl (processTx checksum vault_address) []

/-- `validator_counts[c]`: how many operators have final count `c`
(`Counter(stats['successful'] for stats in address_stats.values())`). -/
def validator_counts (stats : OperatorStats) (c : Int) : Nat :=
  (stats.filter (fun p => p.2 == c)).length

/-- `sorted(l)` on integers: any stable ascending sort embeds Python's
`sorted`; insertion sort keeps the proofs elementary. -/
def sortInts (l : List Int) : List Int := List.insertionSort (· ≤ ·) l

/-- `sorted_counts = sorted(validator_counts.keys())`: the distinct final
per-operator counts, ascending. -/
def sorted_counts (stats : OperatorStats) : List Int :=
  sortInts (stats.map (fun p => p.2)).dedup

/-- `total_validators`: the loop sums `operator_count * validator_count`
over the sorted distinct counts. -/
def total_validators (stats : OperatorStats) : Int :=
  (sorted_counts stats).foldl
    (fun acc c => acc + (validator_counts stats c : Int) * c) 0

/-- `sorted_counts[-1]`, the largest per-operator count (the script only
evaluates it when `address_stats` is non-empty). -/
def max_validators (stats : OperatorStats) : Int :=
  (sorted_counts stats).getLast?.getD 0

/-- The printed histogram: one `(validator_count, operator_count)` line per
distinct count, in ascending count order. -/
def histogram (stats : OperatorStats) : List (Int × Nat) :=
  (sorted_counts stats).map (fun c => (c, validator_counts stats c))

/-- Outcome of `summarize_validators_by_operator` on a fetched list:
either the explicit empty report ("No NodeSet-related Aggregate
transactions found.") or the printed summary.  The ratio field is
`sorted_counts[-1] / total_validators` carried out in `ℚ` (in Python a
float division, which raises `ZeroDivisionError` when the denominator is
zero; in `ℚ` division by zero yields 0, and the theorems about that case
speak about the denominator explicitly). -/
inductive SummaryResult where
  | emptyReport
  | report (hist : List (Int × Nat)) (total : Int) (maxV : Int) (ratio : ℚ)
  deriving DecidableEq, Repr

/-- The decision structure of `summarize_validators_by_operator` after the
fetch: aggregate, guard on emptiness of `address_stats`, then compute the
histogram, totals and ratio. -/
def summarize (checksum : String → String) (vault_address : String)
    (transactions : List Tx) : SummaryResult :=
  let stats := address_stats checksum vault_address transactions
  if stats.isEmpty then .emptyReport
  else
    .report (histogram stats) (total_validators stats) (max_validators stats)
      (Rat.divInt (max_validators stats) (total_validators stats))

/-! ## The transaction fetcher

`fetch_multicall_transactions` drives a `while True:` pagination loop with a
3-attempt `for` retry loop inside.  The network is modelled as a pure oracle
from (page, attempt) to the outcome of one
`requests.get / raise_for_status / response.json()` round trip; the three
exception classes the script catches (`HTTPError` from `raise_for_status`,
any other `RequestException` from the transport, `ValueError` from JSON
decoding) are the error constructors of `PageResult`. -/

/-- Outcome of one HTTP round trip for a (page, attempt) pair. -/
inductive PageResult where
  /-- `raise_for_status()` raised `HTTPError`; carries `response.status_code`. -/
  | httpError (statusCode : Nat)
  /-- `requests.get` raised a non-HTTPError `RequestException`. -/
  | transportError
  /-- `response.json()` raised `ValueError` (malformed body). -/
  | jsonError
  /-- A JSON body: `statusZero` is `data.get('status') == '0'`, `result`
  is `data.get('result', [])`. -/
  | ok (statusZero : Bool) (result : List Tx)
  deriving Repr

/-- What a run of the fetcher did: the records returned, the back-off
delays slept (in seconds, in order), the (page, attempt) pairs requested
(in order), and whether the run returned (rather than running out of
fuel, an artifact of embedding the unbounded loop). -/
structure FetchResult where
  records : List Tx
  sleeps : List Nat
  requests : List (Nat × Nat)
  completed : Bool
  deriving DecidableEq, Repr

/-- One step of the fetch loop, at a given page and retry attempt, carrying
the accumulated `all_transactions`.  Mirrors the body of the `while True:`
loop: a `break` after a full page re-enters the `for` with attempt 0 on the
next page; a `continue` after a retryable 429 increments the attempt;
every handled exception returns the accumulated list. -/
def fetchGo (oracle : Nat → Nat → PageResult) :
    Nat → Nat → Nat → List Tx → FetchResult
  | 0, _, _, acc => ⟨acc, [], [], false⟩
  | fuel + 1, page, attempt, acc =>
    match oracle page attempt with
    | .ok true _ => ⟨acc, [], [(page, attempt)], true⟩
    | .ok false result =>
      if result.length < PAGE_OFFSET then
        ⟨acc ++ result, [], [(page, attempt)], true⟩
      else
        let rest := fetchGo oracle fuel (page + 1) 0 (acc ++ result)
        ⟨rest.records, rest.sleeps, (page, attempt) :: rest.requests,
          rest.completed⟩
    | .httpError statusCode =>
      if statusCode == 429 && attempt < MAX_RETRIES - 1 then
        let rest := fetchGo oracle fuel page (attempt + 1) acc
        ⟨rest.records, RETRY_DELAY * 2 ^ attempt :: rest.sleeps,
          (page, attempt) :: rest.requests, rest.completed⟩
      else ⟨acc, [], [(page, attempt)], true⟩
    | .transportError => ⟨acc, [], [(page, attempt)], true⟩
    | .jsonError => ⟨acc, [], [(page, attempt)], true⟩

/-- `fetch_multicall_transactions`: start at page 1, attempt 0, with an
empty accumulator. -/
def fetch_multicall_transactions (oracle : Nat → Nat → PageResult)
    (fuel : Nat) : FetchResult :=
  fetchGo oracle fuel 1 0 []

/-- A concrete payload that is an aggregate call and references the vault:
the aggregate selector followed by the vault address's lowercased hex
digits. -/
def exampleRelInput : String :=
  "0x252dba42b266274f55e784689e97b7e363b0666d92e6305b"

/-- A concrete payload that is not an aggregate call (wrong selector) but
still contains the vault's hex digits as a substring. -/
def exampleCoincInput : String :=
  "0xdeadbeefb266274f55e784689e97b7e363b0666d92e6305bff"

/-! ## Theorems -/

/-- Folding addition of `f` over a list sums the mapped list. -/
theorem foldl_add_map (f : Int → Int) :
    ∀ (l : List Int) (a : Int),
      l.foldl (fun acc c => acc + f c) a = a + (l.map f).sum
  | [], a => by simp
  | c :: t, a => by
    rw [List.foldl_cons, foldl_add_map f t (a + f c)]
    simp [List.sum_cons, add_assoc]

/-- The histogram multiplicity at `c` is the count of `c` among the final
per-operator counts. -/
theorem validator_counts_eq_count (stats : OperatorStats) (c : Int) :
    validator_counts stats c = (stats.map (fun p => p.2)).count c := by
  induction stats with
  | nil => rfl
  | cons p t ih =>
    by_cases h : p.2 = c
    · simp [validator_counts, List.count_cons, h, List.filter_cons] at ih ⊢
      omega
    · simp [validator_counts, List.count_cons, h, List.filter_cons] at ih ⊢
      exact ih

/-- `sortInts` permutes its input. -/
theorem sortInts_perm (l : List Int) : List.Perm (sortInts l) l :=
  List.perm_insertionSort _ l

/-- `sortInts` sorts ascending. -/
theorem sortInts_sorted (l : List Int) : (sortInts l).Sorted (· ≤ ·) :=
  List.sorted_insertionSort _ l

/-- In an ascending sorted list every element is bounded by the last one. -/
theorem le_getLastD_of_sorted :
    ∀ l : List Int, l.Sorted (· ≤ ·) → ∀ a ∈ l, a ≤ l.getLast?.getD 0
  | [], _, a, ha => absurd ha (List.not_mem_nil a)
  | [x], _, a, ha => by
    simp only [List.mem_singleton] at ha
    simp [ha]
  | x :: y :: t, hs, a, ha => by
    rw [List.sorted_cons] at hs
    obtain ⟨hx, hs1⟩ := hs
    rw [List.getLast?_cons_cons]
    rcases List.mem_cons.mp ha with rfl | ha1
    · exact le_trans (hx y (List.mem_cons_self _ _))
        (le_getLastD_of_sorted (y :: t) hs1 y (List.mem_cons_self _ _))
    · exact le_getLastD_of_sorted (y :: t) hs1 a ha1

/-- The last element of a non-empty list is a member. -/
theorem getLastD_mem :
    ∀ l : List Int, l ≠ [] → l.getLast?.getD 0 ∈ l
  | [], h => absurd rfl h
  | [x], _ => by simp
  | x :: y :: t, _ => by
    rw [List.getLast?_cons_cons]
    exact List.mem_cons_of_mem x (getLastD_mem (y :: t) (List.cons_ne_nil y t))

/-- Summing `f` over the distinct values of `l` equals summing over
`l.toFinset`. -/
theorem sum_map_dedup_eq_sum_toFinset (l : List Int) (f : Int → Int) :
    (l.dedup.map f).sum = ∑ m ∈ l.toFinset, f m := by
  rw [← List.sum_toFinset f (List.nodup_dedup l)]
  congr 1
  exact List.toFinset.ext fun x => List.mem_dedup

/-- Counting in two ways: the bucket-weighted sum over distinct counts
equals the plain sum of all per-operator counts. -/
theorem total_validators_eq_sum (stats : OperatorStats) :
    total_validators stats = (stats.map (fun p => p.2)).sum := by
  unfold total_validators
  rw [foldl_add_map, zero_add]
  have hperm :
      ((sortInts (stats.map (fun p => p.2)).dedup).map
          (fun c => (validator_counts stats c : Int) * c)).sum =
        (((stats.map (fun p => p.2)).dedup).map
          (fun c => (validator_counts stats c : Int) * c)).sum :=
    ((sortInts_perm _).map _).sum_eq
  rw [sorted_counts, hperm, sum_map_dedup_eq_sum_toFinset]
  rw [Finset.sum_list_count (stats.map (fun p => p.2))]
  exact Finset.sum_congr rfl fun m _ => by
    rw [validator_counts_eq_count, nsmul_eq_mul]

/-- Counting in two ways for the histogram itself: the bucket multiplicities
sum to the number of operator entries. -/
theorem histogram_ops_sum (stats : OperatorStats) :
    ((histogram stats).map (fun p => p.2)).sum = stats.length := by
  unfold histogram
  rw [List.map_map]
  have hperm :
      ((sortInts (stats.map (fun p => p.2)).dedup).map
          (fun c => validator_counts stats c)).sum =
        (((stats.map (fun p => p.2)).dedup).map
          (fun c => validator_counts stats c)).sum :=
    ((sortInts_perm _).map _).sum_eq
  show ((sortInts (stats.map (fun p => p.2)).dedup).map
      (fun c => validator_counts stats c)).sum = stats.length
  rw [hperm]
  have : (((stats.map (fun p => p.2)).dedup).map
      (fun c => validator_counts stats c)).sum =
      ∑ m ∈ (stats.map (fun p => p.2)).toFinset,
        (stats.map (fun p => p.2)).count m := by
    rw [← List.sum_toFinset _ (List.nodup_dedup _)]
    rw [show ((stats.map (fun p => p.2)).dedup).toFinset =
        (stats.map (fun p => p.2)).toFinset from
      List.toFinset.ext fun x => List.mem_dedup]
    exact Finset.sum_congr rfl fun m _ => validator_counts_eq_count stats m
  rw [this, List.sum_toFinset_count_eq_length, List.length_map]

/-- The reported maximum is attained and bounds every per-operator count. -/
theorem max_validators_is_max (stats : OperatorStats) (h : stats ≠ []) :
    max_validators stats ∈ stats.map (fun p => p.2) ∧
      ∀ c ∈ stats.map (fun p => p.2), c ≤ max_validators stats := by
  have hl : stats.map (fun p => p.2) ≠ [] := by
    simpa using h
  have hd : (stats.map (fun p => p.2)).dedup ≠ [] := by
    simpa [List.dedup_eq_nil] using hl
  have hsn : sortInts (stats.map (fun p => p.2)).dedup ≠ [] := by
    intro e
    exact hd ((e ▸ sortInts_perm _).symm.eq_nil)
  constructor
  · have hmem := getLastD_mem _ hsn
    have := (sortInts_perm _).mem_iff.mp hmem
    exact List.mem_dedup.mp this
  · intro c hc
    have hc1 : c ∈ sortInts (stats.map (fun p => p.2)).dedup :=
      (sortInts_perm _).mem_iff.mpr (List.mem_dedup.mpr hc)
    exact le_getLastD_of_sorted _ (sortInts_sorted _) c hc1

/-- C2: the fetcher absorbs every failure mode of a round trip.  On a
non-HTTP transport error, on an HTTP error whose status is not 429, and on
a malformed (non-JSON) body, the loop stops paginating and returns exactly
the records accumulated so far — no exception escapes (the run is
`completed`, issues no further requests, and sleeps no further). -/
theorem fetcher_absorbs_errors (oracle : Nat → Nat → PageResult)
    (fuel page attempt : Nat) (acc : List Tx) :
    (oracle page attempt = .transportError →
      fetchGo oracle (fuel + 1) page attempt acc =
        ⟨acc, [], [(page, attempt)], true⟩) ∧
    (∀ statusCode, oracle page attempt = .httpError statusCode →
      statusCode ≠ 429 →
      fetchGo oracle (fuel + 1) page attempt acc =
        ⟨acc, [], [(page, attempt)], true⟩) ∧
    (oracle page attempt = .jsonError →
      fetchGo oracle (fuel + 1) page attempt acc =
        ⟨acc, [], [(page, attempt)], true⟩) := by
  refine ⟨fun h => ?_, fun statusCode h hne => ?_, fun h => ?_⟩
  · simp [fetchGo, h]
  · simp [fetchGo, h, hne]
  · simp [fetchGo, h]

/-- C2 witness: a transport error on the very first request makes the run
return the empty list after that single request. -/
theorem fetcher_absorbs_errors_witness :
    fetchGo (fun _ _ => .transportError) 5 1 0 [] = ⟨[], [], [(1, 0)], true⟩ :=
  (fetcher_absorbs_errors (fun _ _ => .transportError) 4 1 0 []).1 rfl

/-- C3: rate-limit handling.  First conjunct: a page answering 429 on all
three attempts is requested exactly three times (attempts 0, 1, 2), with
back-off sleeps of 2 then 4 seconds between them, and the run then returns
the records accumulated before that page, without raising.  Second
conjunct: a 429 on the third attempt (attempt index `MAX_RETRIES - 1`) is
terminal — no sleep, no further request, return the accumulator. -/
theorem fetcher_rate_limit_retries (oracle : Nat → Nat → PageResult)
    (fuel page : Nat) (acc : List Tx) :
    ((∀ a, a < MAX_RETRIES → oracle page a = .httpError 429) →
      fetchGo oracle (fuel + 3) page 0 acc =
        ⟨acc, [2, 4], [(page, 0), (page, 1), (page, 2)], true⟩) ∧
    (oracle page (MAX_RETRIES - 1) = .httpError 429 →
      fetchGo oracle (fuel + 1) page (MAX_RETRIES - 1) acc =
        ⟨acc, [], [(page, MAX_RETRIES - 1)], true⟩) := by
  constructor
  · intro h
    have h0 := h 0 (by norm_num [MAX_RETRIES])
    have h1 := h 1 (by norm_num [MAX_RETRIES])
    have h2 := h 2 (by norm_num [MAX_RETRIES])
    show fetchGo oracle (fuel + 1 + 1 + 1) page 0 acc = _
    simp [fetchGo, h0, h1, h2, MAX_RETRIES, RETRY_DELAY]
  · intro h
    have h2 : oracle page 2 = .httpError 429 := by simpa [MAX_RETRIES] using h
    simp [fetchGo, h2, MAX_RETRIES]

/-- C3 witness: under an always-429 oracle the whole concrete run is the
three-attempt trace with sleeps 2 and 4 and an empty record list. -/
theorem fetcher_rate_limit_retries_witness :
    fetchGo (fun _ _ => .httpError 429) 10 1 0 [] =
      ⟨[], [2, 4], [(1, 0), (1, 1), (1, 2)], true⟩ :=
  (fetcher_rate_limit_retries (fun _ _ => .httpError 429) 7 1 [] ).1
    (fun _ _ => rfl)

/-- C8: pagination termination and progress.  First conjunct: a page whose
body parses with a non-zero status and strictly fewer than `PAGE_OFFSET`
(1000) records ends the run right after that request, returning the
accumulated records extended by that page.  Second conjunct: a full page
extends the accumulator and continues with the next page number at attempt
0, prepending this request to the trace.  Third conjunct: a whole fetch
starts at page 1, attempt 0, with an empty accumulator. -/
theorem fetcher_pagination (oracle : Nat → Nat → PageResult)
    (fuel page attempt : Nat) (acc result : List Tx) :
    (oracle page attempt = .ok false result → result.length < PAGE_OFFSET →
      fetchGo oracle (fuel + 1) page attempt acc =
        ⟨acc ++ result, [], [(page, attempt)], true⟩) ∧
    (oracle page attempt = .ok false result → ¬ result.length < PAGE_OFFSET →
      fetchGo oracle (fuel + 1) page attempt acc =
        ⟨(fetchGo oracle fuel (page + 1) 0 (acc ++ result)).records,
          (fetchGo oracle fuel (page + 1) 0 (acc ++ result)).sleeps,
          (page, attempt) ::
            (fetchGo oracle fuel (page + 1) 0 (acc ++ result)).requests,
          (fetchGo oracle fuel (page + 1) 0 (acc ++ result)).completed⟩) ∧
    fetch_multicall_transactions oracle fuel = fetchGo oracle fuel 1 0 [] := by
  refine ⟨fun h hlt => ?_, fun h hge => ?_, rfl⟩
  · simp [fetchGo, h, hlt]
  · simp [fetchGo, h, hge]

/-- A record that is not an aggregate call, or not vault-related, leaves
the accumulator untouched. -/
theorem processTx_eq_of_not_relevant (checksum : String → String)
    (vault : String) (stats : OperatorStats) (tx : Tx)
    (h : isAggregateCall tx.input = false ∨
      is_nodeset_transaction tx vault = false) :
    processTx checksum vault stats tx = stats := by
  rcases h with h | h
  · simp [processTx, h]
  · simp [processTx, h]

/-- A list with no relevant aggregate record aggregates to the empty map. -/
theorem address_stats_eq_nil (checksum : String → String) (vault : String) :
    ∀ txs : List Tx,
      (∀ tx ∈ txs, isAggregateCall tx.input = false ∨
        is_nodeset_transaction tx vault = false) →
      address_stats checksum vault txs = []
  | [], _ => rfl
  | t :: ts, h => by
    unfold address_stats
    rw [List.foldl_cons,
      processTx_eq_of_not_relevant checksum vault [] t
        (h t (List.mem_cons_self _ _))]
    exact address_stats_eq_nil checksum vault ts
      (fun tx hx => h tx (List.mem_cons_of_mem _ hx))

/-- C1: the aggregation formulas.  `total_validators`, computed as the
bucket-weighted sum over the histogram, equals the plain sum of the final
per-operator counts; `max_validators` is attained by some operator and
bounds every operator's count; on a non-empty accumulator the summary
reports histogram, total, max, and the ratio max / total; and the spec's
worked example (three successful relevant aggregate records from A, one
from B) yields histogram {1: 1, 3: 1}, total 4, max 3, ratio 3/4. -/
theorem aggregate_summary_formulas (checksum : String → String)
    (vault : String) (txs : List Tx) :
    (total_validators (address_stats checksum vault txs) =
      ((address_stats checksum vault txs).map (fun p => p.2)).sum) ∧
    (address_stats checksum vault txs ≠ [] →
      max_validators (address_stats checksum vault txs) ∈
        (address_stats checksum vault txs).map (fun p => p.2) ∧
      ∀ c ∈ (address_stats checksum vault txs).map (fun p => p.2),
        c ≤ max_validators (address_stats checksum vault txs)) ∧
    (address_stats checksum vault txs ≠ [] →
      summarize checksum vault txs =
        .report (histogram (address_stats checksum vault txs))
          (total_validators (address_stats checksum vault txs))
          (max_validators (address_stats checksum vault txs))
          ((max_validators (address_stats checksum vault txs) : ℚ) /
            (total_validators (address_stats checksum vault txs) : ℚ))) ∧
    summarize id NODESET_VAULT_ADDRESS
        [⟨"0xAAA", exampleRelInput, 0, "0xh1"⟩,
          ⟨"0xAAA", exampleRelInput, 0, "0xh2"⟩,
          ⟨"0xAAA", exampleRelInput, 0, "0xh3"⟩,
          ⟨"0xBBB", exampleRelInput, 0, "0xh4"⟩] =
      .report [(1, 1), (3, 1)] 4 3 (mkRat 3 4) := by
  refine ⟨total_validators_eq_sum _,
    fun h => max_validators_is_max _ h, fun h => ?_, by decide⟩
  have hne : ¬ (address_stats checksum vault txs).isEmpty = true := by
    intro e
    exact h (List.isEmpty_iff.mp e)
  simp only [summarize]
  rw [if_neg hne, Rat.divInt_eq_div]

/-- C1 witness: on a concrete one-record input the non-emptiness
hypothesis holds and the reported maximum is one of the operator counts. -/
theorem aggregate_summary_formulas_witness :
    max_validators (address_stats id NODESET_VAULT_ADDRESS
        [⟨"0xAAA", exampleRelInput, 0, "0xh1"⟩]) ∈
      (address_stats id NODESET_VAULT_ADDRESS
        [⟨"0xAAA", exampleRelInput, 0, "0xh1"⟩]).map (fun p => p.2) :=
  ((aggregate_summary_formulas id NODESET_VAULT_ADDRESS
      [⟨"0xAAA", exampleRelInput, 0, "0xh1"⟩]).2.1 (by decide)).1

/-- C4: a record whose first ten payload characters do not
case-insensitively equal the aggregate selector is excluded from
aggregation — it leaves the accumulator untouched, relevant or not. -/
theorem nonaggregate_record_excluded (checksum : String → String)
    (vault : String) (stats : OperatorStats) (tx : Tx)
    (h : strLower (String.mk (tx.input.data.take 10)) ≠
      strLower AGGREGATE_SIGNATURE) :
    processTx checksum vault stats tx = stats := by
  have hb : (strLower (String.mk (tx.input.data.take 10)) ==
      strLower AGGREGATE_SIGNATURE) = false :=
    beq_eq_false_iff_ne.mpr h
  simp [processTx, isAggregateCall, hb]

/-- C4 witness: a payload with selector `0xdeadbeef` that does contain the
vault digits still leaves a non-trivial accumulator unchanged. -/
theorem nonaggregate_record_excluded_witness :
    processTx id NODESET_VAULT_ADDRESS [("0xCCC", 5)]
        ⟨"0xAAA", exampleCoincInput, 0, "0xh1"⟩ = [("0xCCC", 5)] :=
  nonaggregate_record_excluded id NODESET_VAULT_ADDRESS [("0xCCC", 5)]
    ⟨"0xAAA", exampleCoincInput, 0, "0xh1"⟩ (by decide)

/-- C5: relevance is exactly the case-insensitive substring test.  For any
vault address of the form `0x` followed by its hex digits,
`is_nodeset_transaction` returns true iff the lowercased payload contains
the lowercased digits as a substring; in particular a payload containing
the digits only incidentally (under a non-aggregate selector) is still
classified as relevant. -/
theorem relevance_is_substring_match :
    (∀ (tx : Tx) (digits : String),
      is_nodeset_transaction tx (String.mk ('0' :: 'x' :: digits.data)) =
        containsSub (digits.data.map Char.toLower) (strLower tx.input).data) ∧
    is_nodeset_transaction ⟨"0xCCC", exampleCoincInput, 0, "0xh1"⟩
      NODESET_VAULT_ADDRESS = true := by
  constructor
  · intro tx digits
    simp [is_nodeset_transaction, strLower]
  · decide

/-- C7: when no record is both an aggregate call and vault-related, the
summary is the explicit empty report — the ratio branch (and its
division) is never reached. -/
theorem empty_report_when_no_relevant (checksum : String → String)
    (vault : String) (txs : List Tx)
    (h : ∀ tx ∈ txs, ¬(isAggregateCall tx.input = true ∧
      is_nodeset_transaction tx vault = true)) :
    summarize checksum vault txs = .emptyReport := by
  have h2 : ∀ tx ∈ txs, isAggregateCall tx.input = false ∨
      is_nodeset_transaction tx vault = false := by
    intro tx hx
    rcases Bool.eq_false_or_eq_true (isAggregateCall tx.input) with hb | hb
    · rcases Bool.eq_false_or_eq_true (is_nodeset_transaction tx vault)
        with hb2 | hb2
      · exact absurd ⟨hb, hb2⟩ (h tx hx)
      · exact Or.inr hb2
    · exact Or.inl hb
  have h3 := address_stats_eq_nil checksum vault txs h2
  simp [summarize, h3]

/-- C7 witness: a vault-related record with a non-aggregate selector
produces the empty report. -/
theorem empty_report_when_no_relevant_witness :
    summarize id NODESET_VAULT_ADDRESS
      [⟨"0xAAA", exampleCoincInput, 0, "0xh1"⟩] = .emptyReport :=
  empty_report_when_no_relevant id NODESET_VAULT_ADDRESS
    [⟨"0xAAA", exampleCoincInput, 0, "0xh1"⟩] (by decide)

/-- C10: the division guard is incomplete.  A single relevant aggregate
record with a non-zero error flag creates its operator entry with count 0,
so `address_stats` is non-empty (the empty-result guard does not fire),
`total_validators` is 0, and the summary still reaches the report branch,
whose ratio is `sorted_counts[-1] / total_validators` with a zero
denominator — in the Python source an unguarded `ZeroDivisionError` (here
the `ℚ` division returns 0). -/
theorem unguarded_zero_division_reached :
    address_stats id NODESET_VAULT_ADDRESS
        [⟨"0xAAA", exampleRelInput, 1, "0xh1"⟩] = [("0xAAA", 0)] ∧
    total_validators [("0xAAA", 0)] = 0 ∧
    summarize id NODESET_VAULT_ADDRESS
        [⟨"0xAAA", exampleRelInput, 1, "0xh1"⟩] =
      .report [(0, 1)] 0 0 (Rat.divInt 0 0) :=
  ⟨by decide, by decide, by decide⟩

/-- C8 witness: a single 2-record page terminates the run after one
request with exactly those records. -/
theorem fetcher_pagination_witness :
    fetchGo (fun _ _ => .ok false [⟨"0xA", "0x", 0, "h1"⟩, ⟨"0xB", "0x", 0, "h2"⟩])
        3 1 0 [] =
      ⟨[⟨"0xA", "0x", 0, "h1"⟩, ⟨"0xB", "0x", 0, "h2"⟩], [], [(1, 0)], true⟩ :=
  (fetcher_pagination
      (fun _ _ => .ok false [⟨"0xA", "0x", 0, "h1"⟩, ⟨"0xB", "0x", 0, "h2"⟩])
      2 1 0 [] [⟨"0xA", "0x", 0, "h1"⟩, ⟨"0xB", "0x", 0, "h2"⟩]).1 rfl
    (by norm_num [PAGE_OFFSET])

/-- Unfolding `getCount` over a cons cell. -/
theorem getCount_cons (k : String) (v : Int) (t : OperatorStats)
    (a : String) :
    getCount ((k, v) :: t) a = if k == a then some v else getCount t a := by
  by_cases h : (k == a) = true
  · simp [getCount, List.find?, h]
  · simp only [Bool.not_eq_true] at h
    simp [getCount, List.find?, h]

/-- Incrementing a key maps its stored count through `+ 1`. -/
theorem getCount_incrCount_self :
    ∀ (stats : OperatorStats) (a : String),
      getCount (incrCount a stats) a = (getCount stats a).map (· + 1)
  | [], _ => rfl
  | (k, v) :: t, a => by
    by_cases h : (k == a) = true
    · simp [incrCount, h, getCount_cons]
    · simp only [Bool.not_eq_true] at h
      simp [incrCount, h, getCount_cons, getCount_incrCount_self t a]

/-- Incrementing a key leaves every other key's count unchanged. -/
theorem getCount_incrCount_ne (a b : String) (h : b ≠ a) :
    ∀ stats : OperatorStats,
      getCount (incrCount a stats) b = getCount stats b
  | [] => rfl
  | (k, v) :: t => by
    by_cases hk : (k == a) = true
    · have hka : k = a := by simpa using hk
      have hkb : (k == b) = false :=
        beq_eq_false_iff_ne.mpr (fun e => h (e ▸ hka))
      simp [incrCount, hk, getCount_cons, hkb]
    · simp only [Bool.not_eq_true] at hk
      simp [incrCount, hk, getCount_cons, getCount_incrCount_ne a b h t]

/-- Appending a fresh entry makes its count visible (or keeps the earlier
occurrence, if any). -/
theorem getCount_append_self (a : String) (x : Int) :
    ∀ stats : OperatorStats,
      getCount (stats ++ [(a, x)]) a = some ((getCount stats a).getD x)
  | [] => by simp [getCount, List.find?]
  | (k, v) :: t => by
    by_cases hk : (k == a) = true
    · simp [getCount_cons, hk]
    · simp only [Bool.not_eq_true] at hk
      simp [getCount_cons, hk, getCount_append_self a x t]

/-- Appending an entry for `a` does not change any other key's count. -/
theorem getCount_append_ne (a b : String) (x : Int) (h : b ≠ a) :
    ∀ stats : OperatorStats,
      getCount (stats ++ [(a, x)]) b = getCount stats b
  | [] => by
    have hab : (a == b) = false := beq_eq_false_iff_ne.mpr (fun e => h e.symm)
    show getCount [(a, x)] b = getCount [] b
    simp [getCount_cons, hab, getCount]
  | (k, v) :: t => by
    by_cases hk : (k == b) = true
    · simp [getCount_cons, hk]
    · simp only [Bool.not_eq_true] at hk
      simp [getCount_cons, hk, getCount_append_ne a b x h t]

/-- The membership test of the loop agrees with `getCount`. -/
theorem any_key_eq_isSome (a : String) :
    ∀ stats : OperatorStats,
      stats.any (fun p => p.1 == a) = (getCount stats a).isSome
  | [] => rfl
  | (k, v) :: t => by
    by_cases hk : (k == a) = true
    · simp [getCount_cons, hk]
    · simp only [Bool.not_eq_true] at hk
      simp [getCount_cons, hk, any_key_eq_isSome a t]

/-- C6: only successful relevant aggregate records count.  For a relevant
aggregate record: if the error flag is non-zero, the sender's count after
processing equals its previous count (0 for a previously unseen sender —
the entry is created but not incremented) and every other key is
untouched; if the error flag is zero, the sender's count is exactly one
more than before (previous count 0 if unseen) and every other key is
untouched. -/
theorem failed_calls_do_not_count (checksum : String → String)
    (vault : String) (stats : OperatorStats) (tx : Tx)
    (hAgg : isAggregateCall tx.input = true)
    (hRel : is_nodeset_transaction tx vault = true) :
    (tx.isError ≠ 0 →
      getCount (processTx checksum vault stats tx) (checksum tx.fromAddr) =
        some ((getCount stats (checksum tx.fromAddr)).getD 0) ∧
      ∀ b, b ≠ checksum tx.fromAddr →
        getCount (processTx checksum vault stats tx) b = getCount stats b) ∧
    (tx.isError = 0 →
      getCount (processTx checksum vault stats tx) (checksum tx.fromAddr) =
        some ((getCount stats (checksum tx.fromAddr)).getD 0 + 1) ∧
      ∀ b, b ≠ checksum tx.fromAddr →
        getCount (processTx checksum vault stats tx) b = getCount stats b) := by
  constructor
  · intro hne
    have hE : (tx.isError == 0) = false := beq_eq_false_iff_ne.mpr hne
    by_cases hmem : stats.any (fun p => p.1 == checksum tx.fromAddr) = true
    · have hsome : (getCount stats (checksum tx.fromAddr)).isSome := by
        rw [← any_key_eq_isSome]; exact hmem
      obtain ⟨v, hv⟩ := Option.isSome_iff_exists.mp hsome
      refine ⟨?_, fun b _ => ?_⟩ <;>
        simp [processTx, hAgg, hRel, hE, hmem, hv]
    · simp only [Bool.not_eq_true] at hmem
      have hnone : getCount stats (checksum tx.fromAddr) = none := by
        have := any_key_eq_isSome (checksum tx.fromAddr) stats
        rw [hmem] at this
        exact Option.not_isSome_iff_eq_none.mp (by simp [← this])
      refine ⟨?_, fun b hb => ?_⟩
      · simp [processTx, hAgg, hRel, hE, hmem, hnone,
          getCount_append_self]
      · simp [processTx, hAgg, hRel, hE, hmem,
          getCount_append_ne _ _ _ hb]
  · intro h0
    have hE : (tx.isError == 0) = true := by simp [h0]
    by_cases hmem : stats.any (fun p => p.1 == checksum tx.fromAddr) = true
    · have hsome : (getCount stats (checksum tx.fromAddr)).isSome := by
        rw [← any_key_eq_isSome]; exact hmem
      obtain ⟨v, hv⟩ := Option.isSome_iff_exists.mp hsome
      refine ⟨?_, fun b hb => ?_⟩
      · simp [processTx, hAgg, hRel, hE, hmem, getCount_incrCount_self, hv]
      · simp [processTx, hAgg, hRel, hE, hmem,
          getCount_incrCount_ne _ _ hb]
    · simp only [Bool.not_eq_true] at hmem
      have hnone : getCount stats (checksum tx.fromAddr) = none := by
        have := any_key_eq_isSome (checksum tx.fromAddr) stats
        rw [hmem] at this
        exact Option.not_isSome_iff_eq_none.mp (by simp [← this])
      refine ⟨?_, fun b hb => ?_⟩
      · simp [processTx, hAgg, hRel, hE, hmem, getCount_incrCount_self,
          getCount_append_self, hnone]
      · simp [processTx, hAgg, hRel, hE, hmem,
          getCount_incrCount_ne _ _ hb, getCount_append_ne _ _ _ hb]

/-- C6 witness: a failed relevant aggregate record from an operator with
count 5 leaves that count at 5. -/
theorem failed_calls_do_not_count_witness :
    getCount (processTx id NODESET_VAULT_ADDRESS [("0xAAA", 5)]
        ⟨"0xAAA", exampleRelInput, 1, "0xh1"⟩) "0xAAA" =
      some ((getCount [("0xAAA", 5)] "0xAAA").getD 0) :=
  ((failed_calls_do_not_count id NODESET_VAULT_ADDRESS [("0xAAA", 5)]
      ⟨"0xAAA", exampleRelInput, 1, "0xh1"⟩ (by decide) (by decide)).1
    (by decide)).1

/-- Incrementing changes no keys. -/
theorem map_fst_incrCount (a : String) :
    ∀ stats : OperatorStats,
      (incrCount a stats).map Prod.fst = stats.map Prod.fst
  | [] => rfl
  | (k, v) :: t => by
    by_cases hk : (k == a) = true
    · simp [incrCount, hk]
    · simp only [Bool.not_eq_true] at hk
      simp [incrCount, hk, map_fst_incrCount a t]

/-- Incrementing preserves non-negativity of all stored counts. -/
theorem nonneg_incrCount (a : String) :
    ∀ stats : OperatorStats, (∀ p ∈ stats, 0 ≤ p.2) →
      ∀ p ∈ incrCount a stats, 0 ≤ p.2
  | [], _, p, hp => absurd hp (List.not_mem_nil p)
  | (k, v) :: t, h, p, hp => by
    by_cases hk : (k == a) = true
    · rw [show incrCount a ((k, v) :: t) = (k, v + 1) :: t from by
        simp [incrCount, hk]] at hp
      rcases List.mem_cons.mp hp with rfl | hp2
      · have hv := h (k, v) (List.mem_cons_self _ _)
        simpa using le_trans hv (by omega)
      · exact h p (List.mem_cons_of_mem _ hp2)
    · simp only [Bool.not_eq_true] at hk
      rw [show incrCount a ((k, v) :: t) = (k, v) :: incrCount a t from by
        simp [incrCount, hk]] at hp
      rcases List.mem_cons.mp hp with rfl | hp2
      · exact h (k, v) (List.mem_cons_self _ _)
      · exact nonneg_incrCount a t
          (fun q hq => h q (List.mem_cons_of_mem _ hq)) p hp2

/-- A key absent from the loop's membership test is not among the keys. -/
theorem not_mem_keys_of_any_false (stats : OperatorStats) (a : String)
    (h : stats.any (fun p => p.1 == a) = false) :
    a ∉ stats.map Prod.fst := by
  intro hm
  rcases List.mem_map.mp hm with ⟨p, hp, he⟩
  have h2 := List.any_eq_false.mp h p hp
  exact h2 (by simp [he])

/-- The four shapes one `processTx` step can take. -/
theorem processTx_cases (checksum : String → String) (vault : String)
    (stats : OperatorStats) (tx : Tx) :
    processTx checksum vault stats tx = stats ∨
    processTx checksum vault stats tx =
      incrCount (checksum tx.fromAddr) stats ∨
    (stats.any (fun p => p.1 == checksum tx.fromAddr) = false ∧
      (processTx checksum vault stats tx =
        stats ++ [(checksum tx.fromAddr, 0)] ∨
      processTx checksum vault stats tx =
        incrCount (checksum tx.fromAddr)
          (stats ++ [(checksum tx.fromAddr, 0)]))) := by
  by_cases hA : isAggregateCall tx.input = true
  · by_cases hR : is_nodeset_transaction tx vault = true
    · by_cases hM : stats.any (fun p => p.1 == checksum tx.fromAddr) = true
      · by_cases hE : (tx.isError == 0) = true
        · exact Or.inr (Or.inl (by simp [processTx, hA, hR, hM, hE]))
        · simp only [Bool.not_eq_true] at hE
          exact Or.inl (by simp [processTx, hA, hR, hM, hE])
      · simp only [Bool.not_eq_true] at hM
        by_cases hE : (tx.isError == 0) = true
        · exact Or.inr (Or.inr ⟨hM, Or.inr
            (by simp [processTx, hA, hR, hM, hE])⟩)
        · simp only [Bool.not_eq_true] at hE
          exact Or.inr (Or.inr ⟨hM, Or.inl
            (by simp [processTx, hA, hR, hM, hE])⟩)
    · simp only [Bool.not_eq_true] at hR
      exact Or.inl (by simp [processTx, hR])
  · simp only [Bool.not_eq_true] at hA
    exact Or.inl (by simp [processTx, hA])

/-- Every key after one step was a key before, or is the checksummed
sender of the processed record. -/
theorem processTx_keys (checksum : String → String) (vault : String)
    (stats : OperatorStats) (tx : Tx) :
    ∀ x ∈ (processTx checksum vault stats tx).map Prod.fst,
      x ∈ stats.map Prod.fst ∨ x = checksum tx.fromAddr := by
  rcases processTx_cases checksum vault stats tx with h | h | ⟨_, h | h⟩ <;>
    rw [h] <;> intro x hx
  · exact Or.inl hx
  · rw [map_fst_incrCount] at hx
    exact Or.inl hx
  · rw [List.map_append] at hx
    rcases List.mem_append.mp hx with hx1 | hx1
    · exact Or.inl hx1
    · exact Or.inr (by simpa using hx1)
  · rw [map_fst_incrCount, List.map_append] at hx
    rcases List.mem_append.mp hx with hx1 | hx1
    · exact Or.inl hx1
    · exact Or.inr (by simpa using hx1)

/-- One step preserves non-negativity of all counts. -/
theorem processTx_nonneg (checksum : String → String) (vault : String)
    (stats : OperatorStats) (tx : Tx) (h : ∀ p ∈ stats, 0 ≤ p.2) :
    ∀ p ∈ processTx checksum vault stats tx, 0 ≤ p.2 := by
  have happ : ∀ p ∈ stats ++ [(checksum tx.fromAddr, 0)], 0 ≤ p.2 := by
    intro p hp
    rcases List.mem_append.mp hp with hp1 | hp1
    · exact h p hp1
    · have : p = (checksum tx.fromAddr, 0) := by simpa using hp1
      simp [this]
  rcases processTx_cases checksum vault stats tx with he | he | ⟨_, he | he⟩ <;>
    rw [he]
  · exact h
  · exact nonneg_incrCount _ _ h
  · exact happ
  · exact nonneg_incrCount _ _ happ

/-- One step preserves distinctness of the keys. -/
theorem processTx_nodup (checksum : String → String) (vault : String)
    (stats : OperatorStats) (tx : Tx)
    (h : (stats.map Prod.fst).Nodup) :
    ((processTx checksum vault stats tx).map Prod.fst).Nodup := by
  rcases processTx_cases checksum vault stats tx with
    he | he | ⟨hM, he | he⟩ <;> rw [he]
  · exact h
  · rw [map_fst_incrCount]
    exact h
  · rw [List.map_append]
    simp only [List.map_cons, List.map_nil]
    rw [List.nodup_append]
    exact ⟨h, List.nodup_singleton _,
      by simpa [List.disjoint_singleton] using
        not_mem_keys_of_any_false stats _ hM⟩
  · rw [map_fst_incrCount, List.map_append]
    simp only [List.map_cons, List.map_nil]
    rw [List.nodup_append]
    exact ⟨h, List.nodup_singleton _,
      by simpa [List.disjoint_singleton] using
        not_mem_keys_of_any_false stats _ hM⟩

/-- The three data invariants, pushed through the whole fold. -/
theorem foldl_processTx_inv (checksum : String → String) (vault : String) :
    ∀ (txs : List Tx) (stats : OperatorStats),
      (∀ x ∈ (txs.foldl (processTx checksum vault) stats).map Prod.fst,
        x ∈ stats.map Prod.fst ∨ ∃ tx ∈ txs, x = checksum tx.fromAddr) ∧
      ((∀ p ∈ stats, 0 ≤ p.2) →
        ∀ p ∈ txs.foldl (processTx checksum vault) stats, 0 ≤ p.2) ∧
      ((stats.map Prod.fst).Nodup →
        ((txs.foldl (processTx checksum vault) stats).map Prod.fst).Nodup)
  | [], stats => by simp
  | t :: ts, stats => by
    rw [List.foldl_cons]
    obtain ⟨ih1, ih2, ih3⟩ :=
      foldl_processTx_inv checksum vault ts (processTx checksum vault stats t)
    refine ⟨?_, ?_, ?_⟩
    · intro x hx
      rcases ih1 x hx with hx1 | ⟨tx, htx, he⟩
      · rcases processTx_keys checksum vault stats t x hx1 with h2 | h2
        · exact Or.inl h2
        · exact Or.inr ⟨t, List.mem_cons_self _ _, h2⟩
      · exact Or.inr ⟨tx, List.mem_cons_of_mem _ htx, he⟩
    · intro h0
      exact ih2 (processTx_nonneg checksum vault stats t h0)
    · intro hn
      exact ih3 (processTx_nodup checksum vault stats t hn)

/-- C9: the accumulator's invariants.  Every key of the final operator map
is the checksummed sender of some fetched record; every stored count is
non-negative; the keys are pairwise distinct; and the histogram's bucket
multiplicities sum to the number of (distinct) operators — each operator
lands in exactly one bucket. -/
theorem operator_stats_invariants (checksum : String → String)
    (vault : String) (txs : List Tx) :
    (∀ p ∈ address_stats checksum vault txs,
      ∃ tx ∈ txs, p.1 = checksum tx.fromAddr) ∧
    (∀ p ∈ address_stats checksum vault txs, 0 ≤ p.2) ∧
    ((address_stats checksum vault txs).map Prod.fst).Nodup ∧
    ((histogram (address_stats checksum vault txs)).map (fun p => p.2)).sum =
      (address_stats checksum vault txs).length := by
  obtain ⟨h1, h2, h3⟩ := foldl_processTx_inv checksum vault txs []
  unfold address_stats
  refine ⟨?_, h2 (fun p hp => absurd hp (List.not_mem_nil p)),
    h3 (by simp), histogram_ops_sum _⟩
  intro p hp
  have hx : p.1 ∈ (txs.foldl (processTx checksum vault) []).map Prod.fst :=
    List.mem_map_of_mem _ hp
  rcases h1 p.1 hx with h | h
  · simp at h
  · exact h

/-- C9 witness: on a concrete one-record input, the count stored for the
single operator entry is non-negative. -/
theorem operator_stats_invariants_witness :
    (0 : Int) ≤ (("0xAAA", (1 : Int)) : String × Int).2 :=
  (operator_stats_invariants id NODESET_VAULT_ADDRESS
      [⟨"0xAAA", exampleRelInput, 0, "0xh1"⟩]).2.1
    ("0xAAA", (1 : Int)) (by decide)

end NodesetValidatorSummary
